import Mathlib

/-!
Verification development for the sol-track token-discovery engine
(src/src/utils/helius.ts together with the earlier variants of the same
module kept in src/unnamed/part_006, part_007 and part_008).

The TypeScript code is shallowly embedded: JavaScript strings are lists of
characters (the code only ever manipulates ASCII here), JavaScript Maps are
insertion-ordered association lists, every remote call is an oracle field of
an environment record (Except models a call that can throw after the retry
wrapper, Option models a call whose failures the code swallows), and async
orchestration is sequentialised, which is faithful for the single-threaded
event-loop semantics the code runs under.
-/

set_option maxRecDepth 4000

deriving instance DecidableEq for Except

namespace SolTrack

/-- JavaScript strings, restricted to their ASCII behaviour. -/
abbrev Str := List Char

/-- Embed a Lean string literal as a JS string. -/
def str (s : String) : Str := s.data

/-- ASCII lower-casing of one character, as String.prototype.toLowerCase
acts on ASCII input. -/
def lowerChar (c : Char) : Char :=
  if 'A' ≤ c && c ≤ 'Z' then Char.ofNat (c.toNat + 32) else c

/-- String.prototype.toLowerCase on ASCII strings. -/
def lowerStr (s : Str) : Str := s.map lowerChar

/-- ASCII whitespace (the regex class of backslash-s restricted to ASCII). -/
def isWsChar (c : Char) : Bool :=
  c == ' ' || c == '\t' || c == '\n' || c == '\r' || c == '\x0b' || c == '\x0c'

/-- String.prototype.trim on ASCII strings. -/
def trimList (s : Str) : Str :=
  ((s.dropWhile isWsChar).reverse.dropWhile isWsChar).reverse

/-- The separator class of the word-splitting regex: whitespace,
underscore or dash. -/
def isSepChar (c : Char) : Bool := isWsChar c || c == '_' || c == '-'

/-- One step (from the right) of splitting on runs of separators. -/
def splitStep (c : Char) (st : List Str × Bool) : List Str × Bool :=
  if isSepChar c then
    if st.2 then st else ([] :: st.1, true)
  else
    match st.1 with
    | [] => ([[c]], false)
    | t :: ts => ((c :: t) :: ts, false)

/-- String.prototype.split on a regex matching runs of whitespace,
underscore or dash, exactly as JS produces it (a leading or trailing run
yields an empty fragment; interior runs do not). -/
def splitRuns (s : Str) : List Str := (s.foldr splitStep ([[]], false)).1

/-- String.prototype.includes: substring containment. -/
def strIncludes (h n : Str) : Bool :=
  match h with
  | [] => n.isEmpty
  | c :: t => n.isPrefixOf (c :: t) || strIncludes t n

/-- The JavaScript idiom a-or-else-b on strings: the empty string is falsy. -/
def jsOrStr (a b : Str) : Str := if a.isEmpty then b else a

/-- The sentinel used for unusable names and symbols. -/
def unknownStr : Str := str "Unknown"

/-- Printable ASCII, the class kept by the first replace of
sanitizeTokenText (src/src/utils/helius.ts line 155). -/
def isPrintableAscii (c : Char) : Bool := ' ' ≤ c && c ≤ '~'

/-- The class kept by the second replace of sanitizeTokenText
(word characters, whitespace and dash; line 156). -/
def isKeptSecond (c : Char) : Bool :=
  ('a' ≤ c && c ≤ 'z') || ('A' ≤ c && c ≤ 'Z') || ('0' ≤ c && c ≤ '9') ||
    c == '_' || isWsChar c || c == '-'

/-- sanitizeTokenText (src/src/utils/helius.ts lines 153-161): keep
printable ASCII, then keep word characters, whitespace and dash, trim, and
collapse results shorter than 2 characters to the sentinel. -/
def sanitizeTokenText (text : Str) : Str :=
  let cleaned := trimList ((text.filter isPrintableAscii).filter isKeptSecond)
  if cleaned.length < 2 then unknownStr else cleaned

/-- Lower-case and trim, the normalisation searchTokens applies to the
query (src/src/utils/helius.ts line 373) and matchesTokenQuery applies to
each of its four arguments (lines 102-105). -/
def normQuery (q : Str) : Str := trimList (lowerStr q)

/-- matchesTokenQuery (src/src/utils/helius.ts lines 101-137): exact match
first; for queries of at most 5 characters a strict ticker check; for
longer queries an exact word-membership check over words split on
whitespace, underscore and dash, then whole-query substring fallbacks, the
address being consulted only for queries longer than 10 characters. -/
def matchesTokenQuery (query name symbol address : Str) : Bool :=
  let q := normQuery query
  let n := normQuery name
  let s := normQuery symbol
  let a := normQuery address
  if s == q || n == q || a == q then true
  else if q.length ≤ 5 then
    strIncludes s q || strIncludes q s || q.isPrefixOf n
  else
    let queryWords := splitRuns q
    let nameWords := splitRuns n
    let symbolWords := splitRuns s
    if queryWords.any fun w =>
        decide (2 ≤ w.length) && (symbolWords.contains w || nameWords.contains w) then
      true
    else
      strIncludes s q || strIncludes n q || (decide (10 < q.length) && strIncludes a q)

/-- word.replace of a trailing s by nothing (src/unnamed/part_008
line 121). -/
def replaceTrailingS (w : Str) : Str :=
  match w.reverse with
  | 's' :: t => t.reverse
  | _ => w

/-- The per-word variant forms generated by the older matcher
(src/unnamed/part_008 lines 118-129). -/
def variantForms (w : Str) : List Str :=
  [w, w ++ str "s", replaceTrailingS w, w ++ str "2", w ++ str "3",
    w ++ str "inu", w ++ str "sol", str "sol" ++ w, w ++ str "coin",
    w ++ str "token"]

/-- retryWithBackoff (src/src/utils/helius.ts lines 64-98; the variant in
src/unnamed/part_008 lines 64-94 has the same control flow), shallowly
embedded: the async operation becomes the sequence of outcomes of its
successive invocations, the delays are dropped, and the result is paired
with the number of invocations actually performed. The loop body at
attempt i returns on success and rethrows the error just caught when i
equals the retry budget. -/
def retryAux {E A : Type} (fn : Nat → Except E A) : Nat → Nat → Except E A × Nat
  | i, 0 => (fn i, i + 1)
  | i, Nat.succ k =>
    match fn i with
    | Except.ok a => (Except.ok a, i + 1)
    | Except.error _ => retryAux fn (i + 1) k

/-- retryWithBackoff, starting at attempt 0 with the full retry budget. -/
def retryWithBackoff {E A : Type} (fn : Nat → Except E A) (retries : Nat) :
    Except E A × Nat :=
  retryAux fn 0 retries

theorem retryAux_ok {E A : Type} (fn : Nat → Except E A) (a : A) :
    ∀ (k i fuel : Nat), k ≤ fuel →
      (∀ j, j < k → ∃ e, fn (i + j) = Except.error e) →
      fn (i + k) = Except.ok a →
      retryAux fn i fuel = (Except.ok a, i + k + 1) := by
  intro k
  induction k with
  | zero =>
    intro i fuel _ _ hok
    simp only [Nat.add_zero] at hok
    cases fuel with
    | zero => simp [retryAux, hok]
    | succ f => simp [retryAux, hok]
  | succ k ih =>
    intro i fuel hle hfail hok
    cases fuel with
    | zero => omega
    | succ f =>
      obtain ⟨e, he⟩ := hfail 0 (by omega)
      simp only [Nat.add_zero] at he
      have hstep : retryAux fn i (Nat.succ f) = retryAux fn (i + 1) f := by
        simp [retryAux, he]
      rw [hstep]
      have hres := ih (i + 1) f (by omega)
        (fun j hj => by
          obtain ⟨e2, he2⟩ := hfail (j + 1) (by omega)
          exact ⟨e2, by rw [show i + 1 + j = i + (j + 1) by omega]; exact he2⟩)
        (by rw [show i + 1 + k = i + (k + 1) by omega]; exact hok)
      rw [hres]
      congr 1
      omega

theorem retryAux_err {E A : Type} (fn : Nat → Except E A)
    (hfail : ∀ j, ∃ e, fn j = Except.error e) :
    ∀ (fuel i : Nat), retryAux fn i fuel = (fn (i + fuel), i + fuel + 1) := by
  intro fuel
  induction fuel with
  | zero => intro i; simp [retryAux]
  | succ f ih =>
    intro i
    obtain ⟨e, he⟩ := hfail i
    have hstep : retryAux fn i (Nat.succ f) = retryAux fn (i + 1) f := by
      simp [retryAux, he]
    rw [hstep, ih (i + 1)]
    rw [show i + 1 + f = i + (f + 1) by omega]

/-- C2: for every operation and retry budget, an operation that fails k
times with k below the budget and then succeeds makes retryWithBackoff
return the success value (after k+1 invocations); an operation that always
fails makes retryWithBackoff perform exactly retries+1 invocations and
rethrow the error of the last invocation. -/
theorem retryWithBackoff_spec {E A : Type} (fn : Nat → Except E A) (retries : Nat) :
    (∀ k a, k < retries → (∀ j, j < k → ∃ e, fn j = Except.error e) →
        fn k = Except.ok a →
        retryWithBackoff fn retries = (Except.ok a, k + 1)) ∧
    ((∀ j, ∃ e, fn j = Except.error e) →
        ∃ e, fn retries = Except.error e ∧
          retryWithBackoff fn retries = (Except.error e, retries + 1)) := by
  constructor
  · intro k a hk hfail hok
    have := retryAux_ok fn a k 0 retries (by omega)
      (fun j hj => by simpa using hfail j hj) (by simpa using hok)
    simpa [retryWithBackoff] using this
  · intro hfail
    obtain ⟨e, he⟩ := hfail retries
    refine ⟨e, he, ?_⟩
    have := retryAux_err fn hfail retries 0
    simpa [retryWithBackoff, he] using this

/-- A concrete operation that fails once then succeeds. -/
def retryFnW : Nat → Except Unit Nat := fun i => if i = 1 then Except.ok 7 else Except.error ()

/-- A concrete operation that always fails. -/
def retryFnF : Nat → Except Unit Nat := fun _ => Except.error ()

/-- Witness for C2 at concrete inputs: one failure then success returns
the success value after 2 invocations; always failing with budget 3 errors
after exactly 4 invocations. -/
theorem retryWithBackoff_spec_witness :
    retryWithBackoff retryFnW 3 = (Except.ok 7, 2) ∧
    retryWithBackoff retryFnF 3 = (Except.error (), 4) := by
  constructor
  · exact (retryWithBackoff_spec retryFnW 3).1 1 7 (by omega)
      (fun j hj => ⟨(), by have h0 : j = 0 := by omega
                           subst h0; rfl⟩) rfl
  · obtain ⟨e, _, hr⟩ := (retryWithBackoff_spec retryFnF 3).2 (fun j => ⟨(), rfl⟩)
    cases e
    exact hr

/-- The mint date derived from a block time: the code writes
blockTime ? new Date(blockTime * 1000) : undefined
(src/src/utils/helius.ts line 188), so a missing or zero (falsy) block
time yields no date; milliseconds otherwise. -/
def computeMintDate (blockTime : Option Int) : Option Int :=
  match blockTime with
  | some t => if t == 0 then none else some (t * 1000)
  | none => none

/-- The isNewToken formula shared by src/src/utils/helius.ts line 189
(window fixed at 24h) and the recomputation against the selected time
range in src/unnamed/part_008 lines 856-861: true exactly when a mint date
is present and its age does not exceed the window. -/
def computeIsNewToken (nowMs : Int) (mintDateMs : Option Int) (windowMs : Int) : Bool :=
  match mintDateMs with
  | some m => decide (nowMs - m ≤ windowMs)
  | none => false

/-- C5 counterexample: for the query bonk, the query word bonk has length
at least 2 and its variant form sol-prefixed-to-the-word equals solbonk,
which is a substring of the lowercased name solbonk; yet the current
matchesTokenQuery (src/src/utils/helius.ts lines 101-137) returns false,
because it generates no variant forms, so the claim as stated is false on
the code. -/
theorem matchesTokenQuery_variant_cex :
    splitRuns (normQuery (str "bonk")) = [str "bonk"] ∧
    2 ≤ (str "bonk").length ∧
    str "sol" ++ str "bonk" ∈ variantForms (str "bonk") ∧
    strIncludes (normQuery (str "solbonk")) (str "sol" ++ str "bonk") = true ∧
    matchesTokenQuery (str "bonk") (str "solbonk") (str "zz") (str "aa") = false := by
  decide

/-- C5 amended: the current matcher consults no suffixed variant forms.
Instead, for queries whose normalised form is longer than 5 characters,
it returns true whenever some query word of length at least 2 occurs
verbatim among the words of the lowercased name or symbol (words split on
whitespace, underscore and dash). -/
theorem matchesTokenQuery_word_match (query name symbol address w : Str)
    (h1 : 5 < (normQuery query).length)
    (h2 : w ∈ splitRuns (normQuery query))
    (h3 : 2 ≤ w.length)
    (h4 : w ∈ splitRuns (normQuery name) ∨ w ∈ splitRuns (normQuery symbol)) :
    matchesTokenQuery query name symbol address = true := by
  by_cases hex : (normQuery symbol == normQuery query || normQuery name == normQuery query
      || normQuery address == normQuery query) = true
  · simp only [matchesTokenQuery]
    rw [if_pos hex]
  · have hany : ((splitRuns (normQuery query)).any fun ww =>
        decide (2 ≤ ww.length) && ((splitRuns (normQuery symbol)).contains ww
          || (splitRuns (normQuery name)).contains ww)) = true := by
      refine List.any_eq_true.mpr ⟨w, h2, ?_⟩
      simp only [Bool.and_eq_true, Bool.or_eq_true, decide_eq_true_eq]
      refine ⟨h3, ?_⟩
      rcases h4 with h | h
      · exact Or.inr (List.elem_eq_true_of_mem h)
      · exact Or.inl (List.elem_eq_true_of_mem h)
    simp only [matchesTokenQuery]
    rw [if_neg (by simpa using hex), if_neg (by omega), if_pos hany]

/-- Witness for the amended C5 at a concrete input: query bonk dog (8
characters), whose word bonk occurs verbatim among the name words of
big bonk. -/
theorem matchesTokenQuery_word_match_witness :
    matchesTokenQuery (str "bonk dog") (str "big bonk") (str "zz") (str "aa") = true :=
  matchesTokenQuery_word_match (str "bonk dog") (str "big bonk") (str "zz") (str "aa")
    (str "bonk") (by decide) (by decide) (by decide) (Or.inl (by decide))

/-- A JavaScript Map membership test (Map.prototype.has) over the
insertion-ordered association-list model of a Map. -/
def jsMapHas {V : Type} (m : List (Str × V)) (k : Str) : Bool :=
  m.any fun p => p.1 == k

/-- Map.prototype.get: the value of the unique entry with the given key
(the first such entry in the association-list model). -/
def jsMapGet {V : Type} : List (Str × V) → Str → Option V
  | [], _ => none
  | p :: t, k => if p.1 == k then some p.2 else jsMapGet t k

/-- Map.prototype.set: an existing key keeps its insertion position, a
fresh key is appended at the end. -/
def jsMapSet {V : Type} (m : List (Str × V)) (k : Str) (v : V) : List (Str × V) :=
  if jsMapHas m k then m.map fun p => if p.1 == k then (k, v) else p
  else m ++ [(k, v)]

/-- Map.prototype.delete. -/
def jsMapDelete {V : Type} (m : List (Str × V)) (k : Str) : List (Str × V) :=
  m.filter fun p => !(p.1 == k)

/-- Map.prototype.values as a list, in insertion order. -/
def jsMapValues {V : Type} (m : List (Str × V)) : List V := m.map Prod.snd

theorem jsMapGet_update {V : Type} (m : List (Str × V)) (k : Str) (v : V) :
    jsMapGet (m.map fun p => if p.1 == k then (k, v) else p) k =
      if jsMapHas m k then some v else none := by
  induction m with
  | nil => rfl
  | cons p t ih =>
    cases hpk : (p.1 == k) with
    | true =>
      simp only [List.map_cons, hpk, if_true, jsMapGet, beq_self_eq_true, jsMapHas,
        List.any_cons, Bool.true_or]
    | false =>
      simp only [List.map_cons, hpk, Bool.false_eq_true, if_false]
      simp only [jsMapGet, hpk, Bool.false_eq_true, if_false]
      rw [ih]
      simp only [jsMapHas, List.any_cons, hpk, Bool.false_or]

theorem jsMapGet_append_single {V : Type} (m : List (Str × V)) (k : Str) (v : V)
    (h : jsMapHas m k = false) :
    jsMapGet (m ++ [(k, v)]) k = some v := by
  induction m with
  | nil => simp [jsMapGet]
  | cons p t ih =>
    simp only [jsMapHas, List.any_cons, Bool.or_eq_false_iff] at h
    simp only [List.cons_append, jsMapGet, h.1, Bool.false_eq_true, if_false]
    exact ih (by simp only [jsMapHas]; exact h.2)

theorem jsMapGet_set_self {V : Type} (m : List (Str × V)) (k : Str) (v : V) :
    jsMapGet (jsMapSet m k v) k = some v := by
  unfold jsMapSet
  cases h : jsMapHas m k with
  | true => simp only [if_true, jsMapGet_update, h]
  | false =>
    simp only [Bool.false_eq_true, if_false]
    exact jsMapGet_append_single m k v h

theorem jsMapGet_set_isSome {V : Type} (m : List (Str × V)) (k k2 : Str) (v : V)
    (h : (jsMapGet m k2).isSome = true) :
    (jsMapGet (jsMapSet m k v) k2).isSome = true := by
  unfold jsMapSet
  cases hh : jsMapHas m k with
  | true =>
    simp only [if_true]
    clear hh
    induction m with
    | nil => simp [jsMapGet] at h
    | cons p t ih =>
      cases hpk : (p.1 == k) with
      | true =>
        cases hkk2 : (k == k2) with
        | true => simp only [List.map_cons, hpk, if_true, jsMapGet, hkk2, Option.isSome_some]
        | false =>
          have hpk2 : (p.1 == k2) = false := by
            rw [eq_of_beq hpk]
            exact hkk2
          simp only [jsMapGet, hpk2, Bool.false_eq_true, if_false] at h
          simp only [List.map_cons, hpk, if_true, jsMapGet, hkk2, Bool.false_eq_true,
            if_false]
          exact ih h
      | false =>
        cases hpk2 : (p.1 == k2) with
        | true =>
          simp only [List.map_cons, hpk, Bool.false_eq_true, if_false, jsMapGet, hpk2,
            if_true, Option.isSome_some]
        | false =>
          simp only [jsMapGet, hpk2, Bool.false_eq_true, if_false] at h
          simp only [List.map_cons, hpk, Bool.false_eq_true, if_false, jsMapGet, hpk2]
          exact ih h
  | false =>
    simp only [Bool.false_eq_true, if_false]
    clear hh
    induction m with
    | nil => simp [jsMapGet] at h
    | cons p t ih =>
      cases hpk2 : (p.1 == k2) with
      | true => simp only [List.cons_append, jsMapGet, hpk2, if_true, Option.isSome_some]
      | false =>
        simp only [jsMapGet, hpk2, Bool.false_eq_true, if_false] at h
        simp only [List.cons_append, jsMapGet, hpk2, Bool.false_eq_true, if_false]
        exact ih h

theorem jsMapHas_eq_isSome {V : Type} (m : List (Str × V)) (k : Str) :
    jsMapHas m k = (jsMapGet m k).isSome := by
  induction m with
  | nil => rfl
  | cons p t ih =>
    cases hpk : (p.1 == k) with
    | true =>
      simp only [jsMapHas, List.any_cons, hpk, Bool.true_or, jsMapGet, if_true,
        Option.isSome_some]
    | false =>
      simp only [jsMapHas, List.any_cons, hpk, Bool.false_or, jsMapGet,
        Bool.false_eq_true, if_false]
      exact ih

/-- The optional nested metadata record of a token
(src/src/utils/helius.ts lines 16-20). -/
structure TokenMeta where
  name : Str
  symbol : Str
  uri : Str
deriving DecidableEq

/-- The TokenInfo record returned to callers (src/src/utils/helius.ts
lines 8-27). Dates are millisecond timestamps. -/
structure TokenInfo where
  address : Str
  name : Str
  symbol : Str
  source : Str
  mintDate : Option Int
  isNewToken : Bool
  supply : Option Str
  metadata : Option TokenMeta
deriving DecidableEq

/-- The unconditional merge write used for known-registry hits
(src/src/utils/helius.ts line 403) and for token-list/jupiter hits
(src/unnamed/part_007 lines 438, 447 and 457):
results.set(token.address, token). -/
def resultsSet (m : List (Str × TokenInfo)) (t : TokenInfo) : List (Str × TokenInfo) :=
  jsMapSet m t.address t

/-- The guarded merge write used for ledger-scan hits: a candidate whose
mint address is already present in the merge map is dropped
(src/src/utils/helius.ts lines 461-471; src/unnamed/part_007 lines
513-523). -/
def resultsSetGuarded (m : List (Str × TokenInfo)) (t : TokenInfo) : List (Str × TokenInfo) :=
  if jsMapHas m t.address then m else jsMapSet m t.address t

/-- C4: when the same mint address is produced by a higher-priority
aggregator (known or token-list/jupiter, which write unconditionally) and
by the lower-priority on-chain scan (which writes only when the address is
absent), the merge map ends up holding the higher-priority record in both
arrival orders; and neither write ever removes an existing resolved
record, so merging the same candidate twice never drops a record in
favour of nothing. -/
theorem merge_priority_spec (m : List (Str × TokenInfo)) (hi lo : TokenInfo) (a : Str)
    (h1 : hi.address = a) (h2 : lo.address = a) :
    jsMapGet (resultsSetGuarded (resultsSet m hi) lo) a = some hi ∧
    jsMapGet (resultsSet (resultsSetGuarded m lo) hi) a = some hi ∧
    (∀ k, (jsMapGet m k).isSome = true →
      (jsMapGet (resultsSet m hi) k).isSome = true ∧
      (jsMapGet (resultsSetGuarded m lo) k).isSome = true) ∧
    (jsMapGet (resultsSetGuarded (resultsSetGuarded m lo) lo) a).isSome = true := by
  subst h1
  refine ⟨?_, ?_, ?_, ?_⟩
  · unfold resultsSetGuarded
    have hget : jsMapGet (resultsSet m hi) lo.address = some hi := by
      rw [h2]
      exact jsMapGet_set_self m hi.address hi
    have hhas : jsMapHas (resultsSet m hi) lo.address = true := by
      rw [jsMapHas_eq_isSome, hget]
      rfl
    rw [if_pos hhas, ← h2, hget]
  · unfold resultsSet
    exact jsMapGet_set_self _ hi.address hi
  · intro k hk
    exact ⟨jsMapGet_set_isSome m hi.address k hi hk,
      by
        unfold resultsSetGuarded
        cases hh : jsMapHas m lo.address with
        | true => simpa using hk
        | false =>
          simp only [Bool.false_eq_true, if_false]
          exact jsMapGet_set_isSome m lo.address k lo hk⟩
  · unfold resultsSetGuarded
    cases hh : jsMapHas m lo.address with
    | true =>
      simp only [if_true, hh, if_true]
      rw [← jsMapHas_eq_isSome, ← h2, hh]
    | false =>
      simp only [Bool.false_eq_true, if_false]
      have hget : jsMapGet (jsMapSet m lo.address lo) lo.address = some lo :=
        jsMapGet_set_self m lo.address lo
      have hhas : jsMapHas (jsMapSet m lo.address lo) lo.address = true := by
        rw [jsMapHas_eq_isSome, hget]
        rfl
      rw [if_pos hhas, ← h2, hget]
      rfl

/-- A concrete known-registry record for the C4 witness. -/
def mergeKnownW : TokenInfo :=
  { address := str "m1", name := str "Bonk", symbol := str "BONK",
    source := str "known", mintDate := some 1000, isNewToken := false,
    supply := none, metadata := none }

/-- A concrete on-chain record at the same mint address for the C4
witness. -/
def mergeOnChainW : TokenInfo :=
  { address := str "m1", name := str "Other", symbol := str "OTH",
    source := str "on-chain", mintDate := none, isNewToken := false,
    supply := none, metadata := none }

/-- Witness for C4 at concrete records: both arrival orders leave the
known-source record in the merge map. -/
theorem merge_priority_spec_witness :
    jsMapGet (resultsSetGuarded (resultsSet [] mergeKnownW) mergeOnChainW) (str "m1")
      = some mergeKnownW ∧
    jsMapGet (resultsSet (resultsSetGuarded [] mergeOnChainW) mergeKnownW) (str "m1")
      = some mergeKnownW :=
  ⟨(merge_priority_spec [] mergeKnownW mergeOnChainW (str "m1") (by rfl) (by rfl)).1,
    (merge_priority_spec [] mergeKnownW mergeOnChainW (str "m1") (by rfl) (by rfl)).2.1⟩

/-- A cached decoded transaction (src/src/utils/helius.ts lines 49-56):
the post-execution token-balance mint addresses and a nullable block
time. -/
structure CachedTx where
  postMints : Option (List Str)
  blockTime : Option Int
deriving DecidableEq

/-- The eviction step of a transaction-cache put
(src/src/utils/helius.ts lines 450-455; src/unnamed/part_008 lines
314-319): read the first key of the map and delete it — but only when
that key is truthy: the guard if (firstKey) skips the eviction when the
oldest key is the (falsy) empty string (or the map is empty). -/
def cacheEvict (m2 : List (Str × CachedTx)) : List (Str × CachedTx) :=
  match m2 with
  | [] => m2
  | (k0, _) :: _ => if k0.isEmpty then m2 else jsMapDelete m2 k0

/-- One transaction-cache put, assembled from the set and the guarded
eviction above. -/
def cachePut (m : List (Str × CachedTx)) (k : Str) (v : CachedTx) : List (Str × CachedTx) :=
  if 1000 < (jsMapSet m k v).length then cacheEvict (jsMapSet m k v)
  else jsMapSet m k v

/-- The cache after a sequence of puts, starting from the empty cache the
process begins with. -/
def applyPuts (puts : List (Str × CachedTx)) : List (Str × CachedTx) :=
  puts.foldl (fun m p => cachePut m p.1 p.2) []

/-- Keys of the association-list model of a Map are unique. -/
def cacheKeysNodup (m : List (Str × CachedTx)) : Prop := (m.map Prod.fst).Nodup

theorem cacheEvict_cons (k0 : Str) (v0 : CachedTx) (t : List (Str × CachedTx)) :
    cacheEvict ((k0, v0) :: t) =
      if k0.isEmpty then (k0, v0) :: t else jsMapDelete ((k0, v0) :: t) k0 := rfl

theorem jsMapSet_keys_update {V : Type} (m : List (Str × V)) (k : Str) (v : V) :
    (m.map fun p => if p.1 == k then (k, v) else p).map Prod.fst = m.map Prod.fst := by
  induction m with
  | nil => rfl
  | cons p t ih =>
    cases hpk : (p.1 == k) with
    | true =>
      simp only [List.map_cons, hpk, if_true, ih]
      rw [eq_of_beq hpk]
    | false => simp only [List.map_cons, hpk, Bool.false_eq_true, if_false, ih]

theorem jsMapSet_keys_nodup {V : Type} (m : List (Str × V)) (k : Str) (v : V)
    (h : (m.map Prod.fst).Nodup) : ((jsMapSet m k v).map Prod.fst).Nodup := by
  unfold jsMapSet
  cases hh : jsMapHas m k with
  | true => simpa only [if_true, jsMapSet_keys_update] using h
  | false =>
    simp only [Bool.false_eq_true, if_false, List.map_append, List.map_cons, List.map_nil]
    rw [List.nodup_append]
    refine ⟨h, List.nodup_singleton k, ?_⟩
    intro x hx hk2
    simp only [List.mem_singleton] at hk2
    subst hk2
    simp only [List.mem_map] at hx
    obtain ⟨p, hp, hpx⟩ := hx
    unfold jsMapHas at hh
    have : (m.any fun p => p.1 == x) = true :=
      List.any_eq_true.mpr ⟨p, hp, by simp [hpx]⟩
    rw [hh] at this
    cases this

theorem jsMapSet_length {V : Type} (m : List (Str × V)) (k : Str) (v : V) :
    (jsMapSet m k v).length ≤ m.length + 1 := by
  unfold jsMapSet
  cases jsMapHas m k with
  | true => simp
  | false => simp

theorem jsMapDelete_keys_sublist {V : Type} (m : List (Str × V)) (k : Str) :
    ((jsMapDelete m k).map Prod.fst).Sublist (m.map Prod.fst) :=
  (List.filter_sublist m).map Prod.fst

theorem jsMapSet_keys_ne_nil {V : Type} (m : List (Str × V)) (k : Str) (v : V)
    (hm : ∀ p ∈ m, p.1 ≠ []) (hk : k ≠ []) :
    ∀ p ∈ jsMapSet m k v, p.1 ≠ [] := by
  unfold jsMapSet
  intro p hp
  by_cases hh : jsMapHas m k = true
  · rw [if_pos hh] at hp
    obtain ⟨p0, hp0, rfl⟩ := List.mem_map.mp hp
    cases hb : (p0.1 == k) with
    | true =>
      simp only [hb, if_true]
      exact hk
    | false =>
      simp only [hb, Bool.false_eq_true, if_false]
      exact hm p0 hp0
  · rw [if_neg hh] at hp
    rcases List.mem_append.mp hp with h1 | h1
    · exact hm p h1
    · simp only [List.mem_singleton] at h1
      subst h1
      exact hk

theorem cachePut_inv (m : List (Str × CachedTx)) (k : Str) (v : CachedTx) (hk : k ≠ [])
    (h : m.length ≤ 1000 ∧ cacheKeysNodup m ∧ ∀ p ∈ m, p.1 ≠ []) :
    (cachePut m k v).length ≤ 1000 ∧ cacheKeysNodup (cachePut m k v) ∧
      ∀ p ∈ cachePut m k v, p.1 ≠ [] := by
  have hlen2 : (jsMapSet m k v).length ≤ 1001 := by
    have := jsMapSet_length m k v
    omega
  have hnd2 : ((jsMapSet m k v).map Prod.fst).Nodup := jsMapSet_keys_nodup m k v h.2.1
  have hne2 : ∀ p ∈ jsMapSet m k v, p.1 ≠ [] := jsMapSet_keys_ne_nil m k v h.2.2 hk
  unfold cachePut
  by_cases hov : 1000 < (jsMapSet m k v).length
  · rw [if_pos hov]
    cases hm2 : jsMapSet m k v with
    | nil =>
      rw [hm2] at hov
      simp at hov
    | cons p0 t =>
      obtain ⟨k0, v0⟩ := p0
      rw [hm2] at hlen2 hnd2 hne2
      have hk0 : k0 ≠ [] := hne2 (k0, v0) (List.mem_cons_self _ _)
      have hke : k0.isEmpty = false := by
        cases k0 with
        | nil => exact absurd rfl hk0
        | cons c cs => rfl
      rw [cacheEvict_cons, hke]
      simp only [Bool.false_eq_true, if_false]
      refine ⟨?_, ?_, ?_⟩
      · have hdel : (jsMapDelete ((k0, v0) :: t) k0).length ≤ t.length := by
          unfold jsMapDelete
          simp only [List.filter_cons, beq_self_eq_true, Bool.not_true,
            Bool.false_eq_true, if_false]
          exact List.length_filter_le _ t
        have ht : t.length + 1 ≤ 1001 := by simpa using hlen2
        omega
      · unfold cacheKeysNodup
        exact (jsMapDelete_keys_sublist ((k0, v0) :: t) k0).nodup hnd2
      · intro p hp
        unfold jsMapDelete at hp
        exact hne2 p (List.mem_filter.mp hp).1
  · rw [if_neg hov]
    exact ⟨by omega, hnd2, hne2⟩

/-- C7 amended: after any sequence of puts whose keys are non-empty
strings (a real transaction signature is never empty), the cache holds at
most its capacity of 1000 entries with unique keys; and a fresh-key put
into such a full cache evicts exactly the oldest-inserted entry, in FIFO
order (reads never reorder entries in this model, so recency of access
plays no role). The non-emptiness condition is forced by the eviction
guard if (firstKey): an empty-string oldest key is falsy and the code
then skips the eviction (see the counterexample for the unconditional
bound). -/
theorem transactionCache_spec :
    (∀ puts : List (Str × CachedTx), (∀ p ∈ puts, p.1 ≠ []) →
      (applyPuts puts).length ≤ 1000 ∧ cacheKeysNodup (applyPuts puts)) ∧
    (∀ m k v, cacheKeysNodup m → (∀ p ∈ m, p.1 ≠ []) → jsMapHas m k = false →
      m.length = 1000 → cachePut m k v = m.drop 1 ++ [(k, v)]) := by
  constructor
  · intro puts hkeys
    suffices h : ∀ m0, m0.length ≤ 1000 ∧ cacheKeysNodup m0 ∧ (∀ p ∈ m0, p.1 ≠ []) →
        (puts.foldl (fun m p => cachePut m p.1 p.2) m0).length ≤ 1000 ∧
          cacheKeysNodup (puts.foldl (fun m p => cachePut m p.1 p.2) m0) ∧
          ∀ p ∈ puts.foldl (fun m p => cachePut m p.1 p.2) m0, p.1 ≠ [] by
      have hc := h [] ⟨by simp, by simp [cacheKeysNodup], by simp⟩
      exact ⟨hc.1, hc.2.1⟩
    induction puts with
    | nil =>
      intro m0 h0
      exact h0
    | cons p rest ih =>
      intro m0 h0
      have hp1 : p.1 ≠ [] := hkeys p (List.mem_cons_self _ _)
      exact ih (fun q hq => hkeys q (List.mem_cons_of_mem p hq))
        (cachePut m0 p.1 p.2) (cachePut_inv m0 p.1 p.2 hp1 h0)
  · intro m k v hnd hne hfresh hlen
    unfold cachePut
    have hset : jsMapSet m k v = m ++ [(k, v)] := by
      unfold jsMapSet
      rw [hfresh]
      simp
    rw [hset]
    have hlen2 : (m ++ [(k, v)]).length = 1001 := by simp [hlen]
    rw [if_pos (by omega)]
    cases hm : m with
    | nil =>
      rw [hm] at hlen
      simp at hlen
    | cons p0 t =>
      obtain ⟨k0, v0⟩ := p0
      have hk0 : k0 ≠ [] := by
        refine hne (k0, v0) ?_
        rw [hm]
        exact List.mem_cons_self _ _
      have hke : k0.isEmpty = false := by
        cases k0 with
        | nil => exact absurd rfl hk0
        | cons c cs => rfl
      simp only [List.cons_append]
      rw [cacheEvict_cons, hke]
      simp only [Bool.false_eq_true, if_false]
      unfold jsMapDelete
      simp only [List.filter_cons, beq_self_eq_true, Bool.not_true, Bool.false_eq_true,
        if_false, List.drop_one, List.tail_cons]
      rw [List.filter_append]
      have hkeep : List.filter (fun p => !(p.1 == k0)) t = t := by
        rw [List.filter_eq_self]
        intro p hp
        rw [hm] at hnd
        unfold cacheKeysNodup at hnd
        simp only [List.map_cons, List.nodup_cons] at hnd
        have hk0m : k0 ∉ t.map Prod.fst := hnd.1
        cases hb : (p.1 == k0) with
        | false => rfl
        | true =>
          exact absurd (List.mem_map.mpr ⟨p, hp, (eq_of_beq hb)⟩) hk0m
      have hkv : List.filter (fun p => !(p.1 == k0)) [(k, v)] = [(k, v)] := by
        rw [List.filter_eq_self]
        intro p hp
        simp only [List.mem_singleton] at hp
        subst hp
        cases hb : (k == k0) with
        | false => simp [hb]
        | true =>
          rw [hm] at hfresh
          unfold jsMapHas at hfresh
          have : (((k0, v0) :: t).any fun p => p.1 == k) = true :=
            List.any_eq_true.mpr ⟨(k0, v0), by simp, by
              rw [eq_of_beq hb]; exact beq_self_eq_true k0⟩
          rw [hfresh] at this
          cases this
      rw [hkeep, hkv]

theorem cachePut_skip (t : List (Str × CachedTx)) (v0 : CachedTx) (k : Str) (v : CachedTx)
    (hfresh : jsMapHas (([], v0) :: t) k = false) :
    cachePut (([], v0) :: t) k v = (([], v0) :: t) ++ [(k, v)] := by
  unfold cachePut
  have hset : jsMapSet (([], v0) :: t) k v = (([], v0) :: t) ++ [(k, v)] := by
    unfold jsMapSet
    rw [hfresh]
    simp
  rw [hset]
  by_cases hov : 1000 < ((([], v0) :: t) ++ [(k, v)]).length
  · rw [if_pos hov]
    simp [cacheEvict]
  · rw [if_neg hov]

theorem applyPuts_emptyHead (ps : List (Str × CachedTx)) :
    ∀ (v0 : CachedTx) (t : List (Str × CachedTx)),
      (∀ p ∈ ps, jsMapHas (([], v0) :: t) p.1 = false) →
      (ps.map Prod.fst).Nodup →
      ps.foldl (fun m p => cachePut m p.1 p.2) (([], v0) :: t) = (([], v0) :: t) ++ ps := by
  induction ps with
  | nil =>
    intro v0 t _ _
    simp
  | cons q qs ih =>
    intro v0 t hfresh hnd
    simp only [List.foldl_cons]
    rw [cachePut_skip t v0 q.1 q.2 (hfresh q (List.mem_cons_self q qs))]
    have hq2 : (([], v0) :: t) ++ [(q.1, q.2)] = ([], v0) :: (t ++ [q]) := by simp
    rw [hq2]
    simp only [List.map_cons, List.nodup_cons] at hnd
    rw [ih v0 (t ++ [q])
      (by
        intro p hp
        have hold := hfresh p (List.mem_cons_of_mem q hp)
        unfold jsMapHas at hold ⊢
        simp only [List.any_cons, Bool.or_eq_false_iff] at hold
        have hq1 : (q.1 == p.1) = false := by
          cases hb : (q.1 == p.1) with
          | false => rfl
          | true =>
            have hqm : q.1 ∈ qs.map Prod.fst :=
              List.mem_map.mpr ⟨p, hp, (eq_of_beq hb).symm⟩
            exact absurd hqm hnd.1
        simp [List.any_append, hold.1, hold.2, hq1])
      hnd.2]
    simp

/-- A fixed cached value for the C7 material. -/
def cacheTxW : CachedTx := { postMints := none, blockTime := none }

/-- The put sequence of the C7 counterexample: the empty-string key first,
then 1000 distinct non-empty keys. -/
def putsC7 : List (Str × CachedTx) :=
  ([], cacheTxW) :: (List.range 1000).map fun i => (List.replicate (i + 1) 'a', cacheTxW)

/-- C7 counterexample: after this sequence of puts the cache holds 1001
entries, exceeding the claimed 1000 capacity — once the oldest key is the
empty string, the falsy guard if (firstKey) (src/src/utils/helius.ts line
452, src/unnamed/part_008 line 316) skips every eviction. -/
theorem transactionCache_cap_cex : 1000 < (applyPuts putsC7).length := by
  unfold applyPuts putsC7
  rw [List.foldl_cons]
  have h1 : cachePut [] ([] : Str) cacheTxW = [(([] : Str), cacheTxW)] := rfl
  rw [h1]
  have hfA : ∀ p ∈ (List.range 1000).map
      (fun i => ((List.replicate (i + 1) 'a' : Str), cacheTxW)),
      jsMapHas (([], cacheTxW) :: ([] : List (Str × CachedTx))) p.1 = false := by
    intro p hp
    simp only [List.mem_map, List.mem_range] at hp
    obtain ⟨i, _, rfl⟩ := hp
    unfold jsMapHas
    simp only [List.any_cons, List.any_nil, Bool.or_false]
    cases hb : (([] : Str) == List.replicate (i + 1) 'a') with
    | false => rfl
    | true =>
      have heq := eq_of_beq hb
      rw [List.replicate_succ] at heq
      exact List.noConfusion heq
  have hnA : (((List.range 1000).map
      (fun i => ((List.replicate (i + 1) 'a' : Str), cacheTxW))).map Prod.fst).Nodup := by
    rw [List.map_map]
    have hcomp : (Prod.fst ∘ fun i => ((List.replicate (i + 1) 'a' : Str), cacheTxW))
        = fun i => (List.replicate (i + 1) 'a' : Str) := rfl
    rw [hcomp]
    refine List.Nodup.map ?_ (List.nodup_range 1000)
    intro i j hij
    have := congrArg List.length hij
    simp only [List.length_replicate] at this
    omega
  rw [applyPuts_emptyHead _ cacheTxW [] hfA hnA]
  simp

/-- Keys for the concrete full cache used by the C7 witness: distinct
positive lengths give distinct non-empty keys. -/
def cacheKeyN (i : Nat) : Str := List.replicate (i + 1) 'a'

/-- A concrete cache at full capacity, with non-empty keys, for the C7
witness. -/
def bigCacheW : List (Str × CachedTx) := (List.range 1000).map fun i => (cacheKeyN i, cacheTxW)

/-- Witness for the amended C7: putting a fresh key into the concrete full
cache (whose keys are all non-empty) evicts exactly its oldest entry. -/
theorem transactionCache_spec_witness :
    cachePut bigCacheW (str "zz") cacheTxW = bigCacheW.drop 1 ++ [(str "zz", cacheTxW)] := by
  refine transactionCache_spec.2 bigCacheW (str "zz") cacheTxW ?_ ?_ ?_ ?_
  · unfold cacheKeysNodup bigCacheW
    rw [List.map_map]
    have hcomp : (Prod.fst ∘ fun i => (cacheKeyN i, cacheTxW)) = cacheKeyN := rfl
    rw [hcomp]
    refine List.Nodup.map ?_ (List.nodup_range 1000)
    intro i j hij
    have := congrArg List.length hij
    simp only [cacheKeyN, List.length_replicate] at this
    omega
  · intro p hp
    unfold bigCacheW at hp
    simp only [List.mem_map, List.mem_range] at hp
    obtain ⟨i, _, rfl⟩ := hp
    simp only [cacheKeyN, List.replicate_succ]
    intro hnil
    exact List.noConfusion hnil
  · unfold jsMapHas bigCacheW
    rw [List.any_eq_false]
    intro p hp
    simp only [List.mem_map, List.mem_range] at hp
    obtain ⟨i, _, rfl⟩ := hp
    simp only [cacheKeyN]
    intro hbeq
    have heq := eq_of_beq hbeq
    have hlen := congrArg List.length heq
    simp only [List.length_replicate] at hlen
    rw [show (str "zz").length = 2 from rfl] at hlen
    have hi1 : i = 1 := by omega
    subst hi1
    exact absurd heq (by decide)
  · simp [bigCacheW]

/-- The parsed mint-account state the code reads out of
getParsedAccountInfo (tokenData in src/src/utils/helius.ts lines
186-232). -/
structure MintData where
  name : Option Str
  symbol : Option Str
  supply : Option Str
deriving DecidableEq

/-- The raw name, symbol and uri strings sliced out of a metadata account
(src/src/utils/helius.ts lines 195-204); the byte slicing itself is
external-data plumbing, so the oracle returns its result, and the
sanitisation the code applies to it is modelled explicitly. -/
structure RawMeta where
  name : Str
  symbol : Str
  uri : Str
deriving DecidableEq

/-- An asset as returned by the Helius DAS getAssetsByGroup call, reduced
to the fields searchTokensBySymbol reads (src/src/utils/helius.ts lines
352-362); createdAtMs is the parsed created_at timestamp, absent when the
field is missing or empty (falsy). -/
structure DasAsset where
  id : Str
  metaName : Option Str
  metaSymbol : Option Str
  supply : Option Str
  createdAtMs : Option Int
deriving DecidableEq

/-- One entry of a getSignaturesForAddress response. -/
structure SigEntry where
  signature : Str
  blockTime : Option Int
deriving DecidableEq

/-- The blockTime-only view of a getTransaction response. -/
structure TxLite where
  blockTime : Option Int
deriving DecidableEq

/-- Oracle environment for one searchTokens call against
src/src/utils/helius.ts. Except.error models a call that still fails
after its retry wrapper; Option none models an empty or undecodable
result. -/
structure SearchEnv where
  das : Except Unit (List DasAsset)
  mintAccount : Str → Option MintData
  metadataRaw : Str → Option RawMeta
  nowMs : Int
  programSigs : Except Unit (List SigEntry)
  parsedTx : Str → Except Unit (Option CachedTx)

/-- The decoded-and-sanitised metadata of a mint, when the metadata
account fetch and decode succeed (src/src/utils/helius.ts lines
192-214). -/
def resolvedMeta (env : SearchEnv) (mintAddress : Str) : Option TokenMeta :=
  (env.metadataRaw mintAddress).map fun rm =>
    { name := sanitizeTokenText rm.name, symbol := sanitizeTokenText rm.symbol,
      uri := rm.uri }

/-- metadata-name-or-else-sanitised-mint-name
(src/src/utils/helius.ts line 217). -/
def metaOrName (mo : Option TokenMeta) (td : MintData) : Str :=
  match mo with
  | some md => jsOrStr md.name (sanitizeTokenText (td.name.getD []))
  | none => sanitizeTokenText (td.name.getD [])

/-- metadata-symbol-or-else-sanitised-mint-symbol
(src/src/utils/helius.ts line 218). -/
def metaOrSymbol (mo : Option TokenMeta) (td : MintData) : Str :=
  match mo with
  | some md => jsOrStr md.symbol (sanitizeTokenText (td.symbol.getD []))
  | none => sanitizeTokenText (td.symbol.getD [])

/-- getTokenInfoFromMint (src/src/utils/helius.ts lines 164-238): resolve
the mint account, sanitise names, reject records whose name or symbol
collapses to the sentinel, and derive mintDate and isNewToken from the
supplied block time. Every failure path of the original returns null. -/
def getTokenInfoFromMint (env : SearchEnv) (mintAddress : Str) (blockTime : Option Int) :
    Option TokenInfo :=
  match env.mintAccount mintAddress with
  | none => none
  | some td =>
    if metaOrName (resolvedMeta env mintAddress) td == unknownStr
        || metaOrSymbol (resolvedMeta env mintAddress) td == unknownStr then none
    else some
      { address := mintAddress
      , name := metaOrName (resolvedMeta env mintAddress) td
      , symbol := metaOrSymbol (resolvedMeta env mintAddress) td
      , source := str "on-chain"
      , mintDate := computeMintDate blockTime
      , isNewToken := computeIsNewToken env.nowMs (computeMintDate blockTime) 86400000
      , supply := some (jsOrStr (td.supply.getD []) (str "0"))
      , metadata := resolvedMeta env mintAddress }

/-- Oracle environment for one getTokenDetails call
(src/src/utils/helius.ts lines 523-577). -/
structure DetailsEnv where
  sigsFor : Str → Except Unit (List SigEntry)
  getTx : Str → Except Unit (Option TxLite)
  mintAccount : Str → Except Unit (Option MintData)
  nowMs : Int

/-- The signature-sort comparator of getTokenDetails
(src/src/utils/helius.ts lines 536-538): ascending on block time with
missing times treated as 0. -/
def sigTimeLe (a b : SigEntry) : Prop := a.blockTime.getD 0 ≤ b.blockTime.getD 0

instance : DecidableRel sigTimeLe := fun _ _ => Int.decLe _ _

/-- The mint-date lookup of getTokenDetails (src/src/utils/helius.ts
lines 527-545): block time of the earliest signature; every
failure inside the surrounding try leaves the date absent. -/
def getTokenDetailsMintDate (env : DetailsEnv) (address : Str) : Option Int :=
  match env.sigsFor address with
  | Except.error _ => none
  | Except.ok sigs =>
    if sigs.isEmpty then none
    else
      match List.insertionSort sigTimeLe sigs with
      | [] => none
      | s0 :: _ =>
        match env.getTx s0.signature with
        | Except.error _ => none
        | Except.ok none => none
        | Except.ok (some tx) => computeMintDate tx.blockTime

/-- getTokenDetails (src/src/utils/helius.ts lines 523-577): resolve the
account; when it parses as a mint, return its record with
name-or-else-Unknown and symbol-or-else-Unknown, unsanitised. -/
def getTokenDetails (env : DetailsEnv) (address : Str) : Option TokenInfo :=
  match env.mintAccount address with
  | Except.error _ => none
  | Except.ok none => none
  | Except.ok (some td) =>
    some
      { address := address
      , name := jsOrStr (td.name.getD []) unknownStr
      , symbol := jsOrStr (td.symbol.getD []) unknownStr
      , source := str "on-chain"
      , mintDate := getTokenDetailsMintDate env address
      , isNewToken := computeIsNewToken env.nowMs (getTokenDetailsMintDate env address) 86400000
      , supply := none
      , metadata := none }

theorem sanitizeTokenText_ne_nil (s : Str) : sanitizeTokenText s ≠ [] := by
  unfold sanitizeTokenText
  by_cases h : (trimList ((s.filter isPrintableAscii).filter isKeptSecond)).length < 2
  · rw [if_pos h]
    decide
  · rw [if_neg h]
    intro hnil
    rw [hnil] at h
    simp at h

theorem sanitizeTokenText_cases (s : Str) :
    sanitizeTokenText s = unknownStr ∨ 2 ≤ (sanitizeTokenText s).length := by
  unfold sanitizeTokenText
  by_cases h : (trimList ((s.filter isPrintableAscii).filter isKeptSecond)).length < 2
  · rw [if_pos h]
    exact Or.inl rfl
  · rw [if_neg h]
    exact Or.inr (by omega)

theorem jsOrStr_of_ne_nil (a b : Str) (ha : a ≠ []) : jsOrStr a b = a := by
  unfold jsOrStr
  rw [if_neg (by simpa using ha)]

theorem metaOrName_eq_sanitize (env : SearchEnv) (a : Str) (td : MintData) :
    ∃ z, metaOrName (resolvedMeta env a) td = sanitizeTokenText z := by
  unfold metaOrName resolvedMeta
  cases env.metadataRaw a with
  | none => exact ⟨td.name.getD [], rfl⟩
  | some rm =>
    refine ⟨rm.name, ?_⟩
    dsimp only [Option.map]
    exact jsOrStr_of_ne_nil _ _ (sanitizeTokenText_ne_nil rm.name)

theorem metaOrSymbol_eq_sanitize (env : SearchEnv) (a : Str) (td : MintData) :
    ∃ z, metaOrSymbol (resolvedMeta env a) td = sanitizeTokenText z := by
  unfold metaOrSymbol resolvedMeta
  cases env.metadataRaw a with
  | none => exact ⟨td.symbol.getD [], rfl⟩
  | some rm =>
    refine ⟨rm.symbol, ?_⟩
    dsimp only [Option.map]
    exact jsOrStr_of_ne_nil _ _ (sanitizeTokenText_ne_nil rm.symbol)

/-- C6 amended: sanitizeTokenText never yields the empty string (its
result is the sentinel or has length at least 2), and every record either
entry point returns carries non-empty name and symbol; but getTokenDetails
substitutes the sentinel only for an absent or empty raw name or symbol
and otherwise returns the raw value unsanitised, while the search-path
resolver rejects a record (returns nothing) when a sanitised field would
be the sentinel rather than returning it with the sentinel. -/
theorem tokenText_spec :
    (∀ s, sanitizeTokenText s ≠ [] ∧
      (sanitizeTokenText s = unknownStr ∨ 2 ≤ (sanitizeTokenText s).length)) ∧
    (∀ env a r, getTokenDetails env a = some r →
      r.name ≠ [] ∧ r.symbol ≠ [] ∧
      (∀ td, env.mintAccount a = Except.ok (some td) →
        (td.name.getD [] = [] → r.name = unknownStr) ∧
        (td.name.getD [] ≠ [] → r.name = td.name.getD []))) ∧
    (∀ env a bt r, getTokenInfoFromMint env a bt = some r →
      r.name ≠ [] ∧ r.symbol ≠ [] ∧ r.name ≠ unknownStr ∧ r.symbol ≠ unknownStr) := by
  refine ⟨fun s => ⟨sanitizeTokenText_ne_nil s, sanitizeTokenText_cases s⟩, ?_, ?_⟩
  · intro env a r h
    unfold getTokenDetails at h
    cases hma : env.mintAccount a with
    | error e => rw [hma] at h; cases h
    | ok o =>
      cases o with
      | none => rw [hma] at h; cases h
      | some td =>
        rw [hma] at h
        injection h with h
        subst h
        refine ⟨?_, ?_, ?_⟩
        · show jsOrStr (td.name.getD []) unknownStr ≠ []
          unfold jsOrStr
          cases hn : (td.name.getD []).isEmpty with
          | true => simp only [if_true]; decide
          | false =>
            simp only [Bool.false_eq_true, if_false]
            intro hnil
            rw [hnil] at hn
            simp at hn
        · show jsOrStr (td.symbol.getD []) unknownStr ≠ []
          unfold jsOrStr
          cases hn : (td.symbol.getD []).isEmpty with
          | true => simp only [if_true]; decide
          | false =>
            simp only [Bool.false_eq_true, if_false]
            intro hnil
            rw [hnil] at hn
            simp at hn
        · intro td2 htd2
          have heq : td = td2 := Option.some.inj (Except.ok.inj htd2)
          subst heq
          constructor
          · intro hnil
            show jsOrStr (td.name.getD []) unknownStr = unknownStr
            rw [hnil]
            rfl
          · intro hne
            show jsOrStr (td.name.getD []) unknownStr = td.name.getD []
            exact jsOrStr_of_ne_nil _ _ hne
  · intro env a bt r h
    unfold getTokenInfoFromMint at h
    cases hma : env.mintAccount a with
    | none => rw [hma] at h; cases h
    | some td =>
      rw [hma] at h
      dsimp only at h
      cases hc : (metaOrName (resolvedMeta env a) td == unknownStr
          || metaOrSymbol (resolvedMeta env a) td == unknownStr) with
      | true => rw [hc] at h; simp at h
      | false =>
        rw [hc] at h
        simp only [Bool.false_eq_true, if_false] at h
        injection h with h
        subst h
        simp only [Bool.or_eq_false_iff] at hc
        obtain ⟨z1, hz1⟩ := metaOrName_eq_sanitize env a td
        obtain ⟨z2, hz2⟩ := metaOrSymbol_eq_sanitize env a td
        refine ⟨?_, ?_, ?_, ?_⟩
        · show metaOrName (resolvedMeta env a) td ≠ []
          rw [hz1]; exact sanitizeTokenText_ne_nil z1
        · show metaOrSymbol (resolvedMeta env a) td ≠ []
          rw [hz2]; exact sanitizeTokenText_ne_nil z2
        · show metaOrName (resolvedMeta env a) td ≠ unknownStr
          intro heq
          rw [heq] at hc
          simpa using hc.1
        · show metaOrSymbol (resolvedMeta env a) td ≠ unknownStr
          intro heq
          rw [heq] at hc
          simpa using hc.2

/-- Oracle environment for the C6 counterexample: the mint account parses
with the one-character name x. -/
def detailsEnvC6 : DetailsEnv :=
  { sigsFor := fun _ => Except.ok []
  , getTx := fun _ => Except.ok none
  , mintAccount := fun _ => Except.ok (some
      { name := some (str "x"), symbol := some (str "TK"), supply := none })
  , nowMs := 0 }

/-- The record getTokenDetails returns in the C6 counterexample. -/
def tokenDetailsC6rec : TokenInfo :=
  { address := str "m1", name := str "x", symbol := str "TK",
    source := str "on-chain", mintDate := none, isNewToken := false,
    supply := none, metadata := none }

/-- C6 counterexample: the raw name x is present but its sanitized form is
shorter than 2 characters, so by the claim the returned name should be the
sentinel Unknown; getTokenDetails nevertheless returns the record with
name x, because it never sanitises (src/src/utils/helius.ts lines
560-562). -/
theorem tokenText_sentinel_cex :
    getTokenDetails detailsEnvC6 (str "m1") = some tokenDetailsC6rec ∧
    tokenDetailsC6rec.name = str "x" ∧
    sanitizeTokenText (str "x") = unknownStr ∧
    tokenDetailsC6rec.name ≠ unknownStr := by decide

/-- Witness for the amended C6 applied at the concrete environment of the
counterexample. -/
theorem tokenText_spec_witness :
    tokenDetailsC6rec.name ≠ [] ∧ tokenDetailsC6rec.symbol ≠ [] :=
  ⟨(tokenText_spec.2.1 detailsEnvC6 (str "m1") tokenDetailsC6rec (by decide)).1,
    (tokenText_spec.2.1 detailsEnvC6 (str "m1") tokenDetailsC6rec (by decide)).2.1⟩

/-- The exact-match test of the final sort comparator
(src/src/utils/helius.ts lines 500-501): lowercased symbol or name equals
the normalised query. -/
def exactKey (q : Str) (t : TokenInfo) : Bool :=
  lowerStr t.symbol == q || lowerStr t.name == q

/-- The known-source test of the final sort comparator (lines 506-507). -/
def knownKey (t : TokenInfo) : Bool := t.source == str "known"

/-- The mint-date leg of the comparator (lines 509-513): undated records
sort last, dated records by descending date. -/
def dateCmp : Option Int → Option Int → Int
  | none, none => 0
  | none, some _ => 1
  | some _, none => -1
  | some ta, some tb => tb - ta

/-- The comparator passed to sort on the main result path
(src/src/utils/helius.ts lines 498-514): exact matches first, then known
tokens, then by mint date. -/
def mainCmp (q : Str) (a b : TokenInfo) : Int :=
  if exactKey q a && !exactKey q b then -1
  else if !exactKey q a && exactKey q b then 1
  else if knownKey a && !knownKey b then -1
  else if !knownKey a && knownKey b then 1
  else dateCmp a.mintDate b.mintDate

/-- The comparator of the DAS short-circuit path (lines 385-392): exact
symbol matches first, all other pairs tied. -/
def dasCmp (q : Str) (a b : TokenInfo) : Int :=
  if (lowerStr a.symbol == q) && !(lowerStr b.symbol == q) then -1
  else if !(lowerStr a.symbol == q) && (lowerStr b.symbol == q) then 1
  else 0

/-- The non-strict order induced by the main comparator; a stable
comparison sort orders its output by this relation. -/
def mainLe (q : Str) (a b : TokenInfo) : Prop := mainCmp q a b ≤ 0

/-- The non-strict order induced by the DAS-path comparator. -/
def dasLe (q : Str) (a b : TokenInfo) : Prop := dasCmp q a b ≤ 0

instance (q : Str) : DecidableRel (mainLe q) := fun _ _ => Int.decLe _ _

instance (q : Str) : DecidableRel (dasLe q) := fun _ _ => Int.decLe _ _

theorem dateCmp_total (x y : Option Int) : dateCmp x y ≤ 0 ∨ dateCmp y x ≤ 0 := by
  cases x <;> cases y <;> simp [dateCmp] <;> omega

theorem dateCmp_trans (x y z : Option Int) (h1 : dateCmp x y ≤ 0) (h2 : dateCmp y z ≤ 0) :
    dateCmp x z ≤ 0 := by
  cases x <;> cases y <;> cases z <;> simp [dateCmp] at * <;> omega

theorem mainCmp_le_total (q : Str) (a b : TokenInfo) :
    mainCmp q a b ≤ 0 ∨ mainCmp q b a ≤ 0 := by
  unfold mainCmp
  cases hea : exactKey q a <;> cases heb : exactKey q b <;>
    cases hka : knownKey a <;> cases hkb : knownKey b <;>
    simp only [Bool.not_true, Bool.not_false, Bool.true_and, Bool.false_and,
      Bool.and_true, Bool.and_false, Bool.and_self, if_true, Bool.false_eq_true,
      if_false] <;>
    first
      | exact Or.inl (by omega)
      | exact Or.inr (by omega)
      | exact dateCmp_total _ _

theorem mainCmp_le_trans (q : Str) (a b c : TokenInfo)
    (h1 : mainCmp q a b ≤ 0) (h2 : mainCmp q b c ≤ 0) : mainCmp q a c ≤ 0 := by
  unfold mainCmp at h1 h2 ⊢
  cases hea : exactKey q a <;> cases heb : exactKey q b <;> cases hec : exactKey q c <;>
    cases hka : knownKey a <;> cases hkb : knownKey b <;> cases hkc : knownKey c <;>
    simp only [hea, heb, hec, hka, hkb, hkc, Bool.not_true, Bool.not_false,
      Bool.true_and, Bool.false_and, Bool.and_true, Bool.and_false, Bool.and_self,
      if_true, Bool.false_eq_true, if_false] at h1 h2 ⊢ <;>
    first
      | omega
      | exact dateCmp_trans _ _ _ h1 h2

theorem dasCmp_le_total (q : Str) (a b : TokenInfo) :
    dasCmp q a b ≤ 0 ∨ dasCmp q b a ≤ 0 := by
  unfold dasCmp
  cases hea : (lowerStr a.symbol == q) <;> cases heb : (lowerStr b.symbol == q) <;>
    simp only [Bool.not_true, Bool.not_false, Bool.true_and, Bool.false_and,
      Bool.and_true, Bool.and_false, Bool.and_self, if_true, Bool.false_eq_true,
      if_false] <;>
    first
      | exact Or.inl (by omega)
      | exact Or.inr (by omega)

theorem dasCmp_le_trans (q : Str) (a b c : TokenInfo)
    (h1 : dasCmp q a b ≤ 0) (h2 : dasCmp q b c ≤ 0) : dasCmp q a c ≤ 0 := by
  unfold dasCmp at h1 h2 ⊢
  cases hea : (lowerStr a.symbol == q) <;> cases heb : (lowerStr b.symbol == q) <;>
    cases hec : (lowerStr c.symbol == q) <;>
    simp only [hea, heb, hec, Bool.not_true, Bool.not_false, Bool.true_and,
      Bool.false_and, Bool.and_true, Bool.and_false, Bool.and_self, if_true,
      Bool.false_eq_true, if_false] at h1 h2 ⊢ <;>
    omega

instance (q : Str) : IsTotal TokenInfo (mainLe q) := ⟨fun a b => mainCmp_le_total q a b⟩

instance (q : Str) : IsTrans TokenInfo (mainLe q) :=
  ⟨fun a b c h1 h2 => mainCmp_le_trans q a b c h1 h2⟩

instance (q : Str) : IsTotal TokenInfo (dasLe q) := ⟨fun a b => dasCmp_le_total q a b⟩

instance (q : Str) : IsTrans TokenInfo (dasLe q) :=
  ⟨fun a b c h1 h2 => dasCmp_le_trans q a b c h1 h2⟩

/-- The TokenInfo record built out of one DAS asset
(src/src/utils/helius.ts lines 354-362). -/
def dasToken (a : DasAsset) : TokenInfo :=
  { address := a.id
  , name := jsOrStr (a.metaName.getD []) unknownStr
  , symbol := jsOrStr (a.metaSymbol.getD []) unknownStr
  , source := str "helius-das"
  , mintDate := a.createdAtMs
  , isNewToken := false
  , supply := some (jsOrStr (a.supply.getD []) (str "0"))
  , metadata := none }

/-- searchTokensBySymbol (src/src/utils/helius.ts lines 318-368) as a
function of the DAS oracle response: every thrown error is caught and
yields the empty list; assets without a non-empty symbol are dropped; the
rest become records tagged helius-das. -/
def searchTokensBySymbol (das : Except Unit (List DasAsset)) : List TokenInfo :=
  match das with
  | Except.error _ => []
  | Except.ok assets =>
    (assets.filter fun a => !(a.metaSymbol.getD []).isEmpty).map dasToken

/-- The deduplicated DAS result map (lines 377-380). -/
def dasMap (das : Except Unit (List DasAsset)) : List (Str × TokenInfo) :=
  (searchTokensBySymbol das).foldl (fun m t => jsMapSet m t.address t) []

/-- Whether the DAS fast path short-circuits: queries of at most 10
characters whose DAS lookup produced at least one record return
immediately (lines 376-394). -/
def shortCircuit (env : SearchEnv) (query : Str) : Bool :=
  decide (query.length ≤ 10) && !(dasMap env.das).isEmpty

/-- One entry of the known-token registry
(src/src/utils/helius.ts lines 30-36). -/
structure KnownEntry where
  address : Str
  symbol : Str
  name : Str
deriving DecidableEq

/-- The hard-coded known-token registry (src/src/utils/helius.ts lines
30-36): a single entry for BONK, keyed by its symbol. -/
def KNOWN_TOKENS : List (Str × KnownEntry) :=
  [(str "BONK",
    { address := str "DezXAZ8z7PnrnRJjz3wXBoRgixCa6xjnB7YaB1pPB263",
      symbol := str "BONK", name := str "Bonk" })]

/-- The known-registry phase (src/src/utils/helius.ts lines 396-407):
registry entries matching the query are resolved and written into the
merge map tagged known; resolution failures contribute nothing. -/
def knownResults (env : SearchEnv) (searchQuery : Str) : List (Str × TokenInfo) :=
  (KNOWN_TOKENS.filter fun p =>
      matchesTokenQuery searchQuery p.2.name p.1 p.2.address).foldl
    (fun m p =>
      match getTokenInfoFromMint env p.2.address none with
      | some ti => jsMapSet m p.2.address { ti with source := str "known" }
      | none => m) []

/-- One candidate mint of one scanned transaction
(src/src/utils/helius.ts lines 461-474): skip already-merged addresses,
resolve, filter by the query matcher, write into the merge map. -/
def processMint (env : SearchEnv) (sq : Str) (bt : Option Int)
    (results : List (Str × TokenInfo)) (mintAddress : Str) : List (Str × TokenInfo) :=
  if jsMapHas results mintAddress then results
  else
    match getTokenInfoFromMint env mintAddress bt with
    | none => results
    | some ti =>
      if matchesTokenQuery sq ti.name ti.symbol mintAddress then
        jsMapSet results mintAddress ti
      else results

/-- One scanned signature (src/src/utils/helius.ts lines 427-478):
consult the transaction cache, else fetch, project and cache the parsed
transaction (evicting beyond the cap); per-signature failures are
swallowed; then process every post-token-balance mint. -/
def processSig (env : SearchEnv) (sq : Str)
    (st : List (Str × CachedTx) × List (Str × TokenInfo)) (sig : SigEntry) :
    List (Str × CachedTx) × List (Str × TokenInfo) :=
  match jsMapGet st.1 sig.signature with
  | some tx =>
    match tx.postMints with
    | none => st
    | some [] => st
    | some mints => (st.1, mints.foldl (processMint env sq tx.blockTime) st.2)
  | none =>
    match env.parsedTx sig.signature with
    | Except.error _ => st
    | Except.ok none => st
    | Except.ok (some ptx) =>
      match ptx.postMints with
      | none => (cachePut st.1 sig.signature ptx, st.2)
      | some [] => (cachePut st.1 sig.signature ptx, st.2)
      | some mints =>
        (cachePut st.1 sig.signature ptx,
          mints.foldl (processMint env sq ptx.blockTime) st.2)

/-- Split the recent signatures into batches (batch size 10,
src/src/utils/helius.ts lines 420-424). -/
def chunksOf {α : Type} (n : Nat) : List α → List (List α)
  | [] => []
  | x :: xs => (x :: xs.take (n - 1)) :: chunksOf n (xs.drop (n - 1))
termination_by l => l.length
decreasing_by
  simp only [List.length_drop, List.length_cons]
  omega

/-- The batch loop of the ledger scan (src/src/utils/helius.ts lines
423-492), sequentialised for the single-threaded event loop: process
batches in order while the merge map holds fewer than 50 records. -/
def scanLoop (env : SearchEnv) (sq : Str) :
    List (List SigEntry) → List (Str × CachedTx) × List (Str × TokenInfo) →
      List (Str × CachedTx) × List (Str × TokenInfo)
  | [], st => st
  | b :: bs, st =>
    if st.2.length < 50 then scanLoop env sq bs (b.foldl (processSig env sq) st)
    else st

/-- searchTokens (src/src/utils/helius.ts lines 370-521): DAS fast path
with immediate return on any hit; otherwise the known registry; the
ledger scan runs only when the merge map is still empty, and a failure of
its signature fetch propagates out of the function (the outer catch
rethrows); finally sort and truncate to 50. -/
def searchTokens (env : SearchEnv) (cache0 : List (Str × CachedTx)) (query : Str) :
    Except Unit (List TokenInfo) :=
  if shortCircuit env query then
    Except.ok (List.insertionSort (dasLe (normQuery query)) (jsMapValues (dasMap env.das)))
  else
    if (knownResults env (normQuery query)).isEmpty then
      match env.programSigs with
      | Except.error _ => Except.error ()
      | Except.ok sigs =>
        Except.ok ((List.insertionSort (mainLe (normQuery query))
          (jsMapValues (scanLoop env (normQuery query) (chunksOf 10 sigs)
            (cache0, knownResults env (normQuery query))).2)).take 50)
    else
      Except.ok ((List.insertionSort (mainLe (normQuery query))
        (jsMapValues (knownResults env (normQuery query)))).take 50)

theorem jsMapSet_ne_nil {V : Type} (m : List (Str × V)) (k : Str) (v : V) :
    jsMapSet m k v ≠ [] := by
  unfold jsMapSet
  cases m with
  | nil => simp [jsMapHas]
  | cons p t =>
    cases hh : jsMapHas (p :: t) k with
    | true => simp
    | false => simp

theorem foldSet_ne_nil (ts : List TokenInfo) (m : List (Str × TokenInfo))
    (h : m ≠ [] ∨ ts ≠ []) :
    ts.foldl (fun acc t => jsMapSet acc t.address t) m ≠ [] := by
  induction ts generalizing m with
  | nil =>
    rcases h with h | h
    · simpa using h
    · simp at h
  | cons t ts ih =>
    simp only [List.foldl_cons]
    exact ih (jsMapSet m t.address t) (Or.inl (jsMapSet_ne_nil m t.address t))

theorem mem_values_jsMapSet {V : Type} (m : List (Str × V)) (k : Str) (v r : V)
    (h : r ∈ jsMapValues (jsMapSet m k v)) : r ∈ jsMapValues m ∨ r = v := by
  unfold jsMapSet at h
  by_cases hh : jsMapHas m k = true
  · rw [if_pos hh] at h
    unfold jsMapValues at h ⊢
    simp only [List.map_map, List.mem_map] at h
    obtain ⟨p, hp, hpr⟩ := h
    simp only [Function.comp] at hpr
    cases hpk : (p.1 == k) with
    | true =>
      rw [hpk] at hpr
      simp at hpr
      exact Or.inr hpr.symm
    | false =>
      rw [hpk] at hpr
      simp at hpr
      exact Or.inl (List.mem_map.mpr ⟨p, hp, hpr⟩)
  · rw [if_neg hh] at h
    unfold jsMapValues at h ⊢
    simp only [List.map_append, List.map_cons, List.map_nil, List.mem_append,
      List.mem_singleton] at h
    exact h

theorem mem_values_foldSet (ts : List TokenInfo) (m : List (Str × TokenInfo)) (r : TokenInfo)
    (h : r ∈ jsMapValues (ts.foldl (fun acc t => jsMapSet acc t.address t) m)) :
    r ∈ jsMapValues m ∨ r ∈ ts := by
  induction ts generalizing m with
  | nil => exact Or.inl h
  | cons t ts ih =>
    simp only [List.foldl_cons] at h
    rcases ih (jsMapSet m t.address t) h with h2 | h2
    · rcases mem_values_jsMapSet m t.address t r h2 with h3 | h3
      · exact Or.inl h3
      · exact Or.inr (by simp [h3])
    · exact Or.inr (List.mem_cons_of_mem t h2)

/-- C1 amended: failures inside the DAS lookup, the known-registry
resolution and individual scan transactions are swallowed, so those
sources degrade to partial (possibly empty) results; but searchTokens
throws exactly when the DAS fast path did not short-circuit, the known
phase produced no record, and the signature fetch of the ledger scan failed
after its retries — even though earlier data sources succeeded. -/
theorem searchTokens_error_iff (env : SearchEnv) (cache0 : List (Str × CachedTx))
    (query : Str) :
    searchTokens env cache0 query = Except.error () ↔
      shortCircuit env query = false ∧ knownResults env (normQuery query) = [] ∧
        env.programSigs = Except.error () := by
  unfold searchTokens
  cases hsc : shortCircuit env query with
  | true => simp
  | false =>
    simp only [Bool.false_eq_true, if_false, true_and]
    cases hke : (knownResults env (normQuery query)).isEmpty with
    | true =>
      have hkeq : knownResults env (normQuery query) = [] := by
        simpa using hke
      simp only [hke, if_true, hkeq, true_and]
      cases hps : env.programSigs with
      | error e => cases e; simp
      | ok sigs => simp
    | false =>
      have hkne : ¬ knownResults env (normQuery query) = [] := by
        intro hnil
        rw [hnil] at hke
        simp at hke
      simp only [hke, Bool.false_eq_true, if_false]
      simp [hkne]

/-- Oracle environment for the C1 counterexample: the DAS token-list call
succeeds with no assets, the known registry resolves nothing (no match for
the query), and the signature fetch of the ledger scan fails after retries. -/
def searchEnvC1 : SearchEnv :=
  { das := Except.ok []
  , mintAccount := fun _ => none
  , metadataRaw := fun _ => none
  , nowMs := 0
  , programSigs := Except.error ()
  , parsedTx := fun _ => Except.ok none }

/-- C1 counterexample: only the ledger-scan aggregator fails — the DAS
data source succeeded (an ok, empty response) — yet searchTokens throws
instead of continuing with the partial (empty) results of the surviving
sources; so it does not hold that searchTokens throws only when every
underlying data source failed. -/
theorem searchTokens_partial_failure_cex :
    searchTokens searchEnvC1 [] (str "zq") = Except.error () ∧
    searchEnvC1.das = Except.ok [] := by decide

/-- Witness for the amended C1: the characterisation applied at the
concrete counterexample environment. -/
theorem searchTokens_error_iff_witness :
    searchTokens searchEnvC1 [] (str "zq") = Except.error () :=
  (searchTokens_error_iff searchEnvC1 [] (str "zq")).mpr
    ⟨by decide, by decide, by decide⟩

/-- C3 amended: every result list searchTokens returns is sorted by the
comparator of the branch that produced it. On the DAS short-circuit path
only exact-symbol matches are pulled to the front (no ordering by source
or date); on every other path the order is exact query matches first, then
known-source records, then descending mint date with undated records
last. -/
theorem searchTokens_sorted (env : SearchEnv) (cache0 : List (Str × CachedTx))
    (query : Str) (l : List TokenInfo)
    (h : searchTokens env cache0 query = Except.ok l) :
    (shortCircuit env query = true → List.Pairwise (dasLe (normQuery query)) l) ∧
    (shortCircuit env query = false → List.Pairwise (mainLe (normQuery query)) l) := by
  unfold searchTokens at h
  cases hsc : shortCircuit env query with
  | true =>
    rw [hsc, if_pos rfl] at h
    refine ⟨fun _ => ?_, fun hf => absurd hf (by decide)⟩
    injection h with h
    subst h
    exact List.sorted_insertionSort (dasLe (normQuery query)) _
  | false =>
    rw [hsc, if_neg (by decide)] at h
    refine ⟨fun ht => absurd ht (by decide), fun _ => ?_⟩
    cases hke : (knownResults env (normQuery query)).isEmpty with
    | true =>
      rw [hke, if_pos rfl] at h
      cases hps : env.programSigs with
      | error e =>
        rw [hps] at h
        cases h
      | ok sigs =>
        rw [hps] at h
        injection h with h
        subst h
        exact List.Pairwise.sublist (List.take_sublist _ _)
          (List.sorted_insertionSort (mainLe (normQuery query)) _)
    | false =>
      rw [hke] at h
      simp only [Bool.false_eq_true, if_false] at h
      injection h with h
      subst h
      exact List.Pairwise.sublist (List.take_sublist _ _)
        (List.sorted_insertionSort (mainLe (normQuery query)) _)

/-- DAS asset with the older creation date, for the C3 counterexample. -/
def dasAssetOldC3 : DasAsset :=
  { id := str "a1", metaName := some (str "aa"), metaSymbol := some (str "aa"),
    supply := none, createdAtMs := some 100 }

/-- DAS asset with the newer creation date, for the C3 counterexample. -/
def dasAssetNewC3 : DasAsset :=
  { id := str "a2", metaName := some (str "bb"), metaSymbol := some (str "bb"),
    supply := none, createdAtMs := some 200 }

/-- Oracle environment for the C3 counterexample. -/
def searchEnvC3 : SearchEnv :=
  { das := Except.ok [dasAssetOldC3, dasAssetNewC3]
  , mintAccount := fun _ => none
  , metadataRaw := fun _ => none
  , nowMs := 0
  , programSigs := Except.ok []
  , parsedTx := fun _ => Except.ok none }

/-- C3 counterexample: searchTokens returns two records of the same
(non-known) source with the older mint date (100) before the newer one
(200) — the DAS short-circuit path sorts only by exact symbol match and
never by descending mint date, so the claimed sort order is false. -/
theorem searchTokens_sort_cex :
    searchTokens searchEnvC3 [] (str "bonk")
      = Except.ok [dasToken dasAssetOldC3, dasToken dasAssetNewC3] ∧
    (dasToken dasAssetOldC3).mintDate = some 100 ∧
    (dasToken dasAssetNewC3).mintDate = some 200 ∧
    (dasToken dasAssetOldC3).source = (dasToken dasAssetNewC3).source ∧
    (dasToken dasAssetOldC3).source ≠ str "known" := by decide

/-- Witness for the amended C3 at the concrete counterexample input. -/
theorem searchTokens_sorted_witness :
    (shortCircuit searchEnvC3 (str "bonk") = true →
      List.Pairwise (dasLe (normQuery (str "bonk")))
        [dasToken dasAssetOldC3, dasToken dasAssetNewC3]) ∧
    (shortCircuit searchEnvC3 (str "bonk") = false →
      List.Pairwise (mainLe (normQuery (str "bonk")))
        [dasToken dasAssetOldC3, dasToken dasAssetNewC3]) :=
  searchTokens_sorted searchEnvC3 [] (str "bonk")
    [dasToken dasAssetOldC3, dasToken dasAssetNewC3] (by decide)

/-- C10: for a query of at most 10 characters whose DAS symbol lookup
returns at least one usable asset, searchTokens returns exactly the
(deduplicated, sorted) DAS records — a non-empty list all of whose
records are tagged helius-das and come from the DAS response, none tagged
known — and the result does not depend on the known registry, the
resolver or the ledger scan: any environment with the same DAS response
yields the same result. -/
theorem das_shortcircuit_spec (env : SearchEnv) (cache0 : List (Str × CachedTx))
    (query : Str) (h1 : query.length ≤ 10) (h2 : searchTokensBySymbol env.das ≠ []) :
    ∃ l, searchTokens env cache0 query = Except.ok l ∧ l ≠ [] ∧
      (∀ r, r ∈ l → r.source = str "helius-das" ∧ r ∈ searchTokensBySymbol env.das ∧
        r.source ≠ str "known") ∧
      (∀ env2 cache2, env2.das = env.das →
        searchTokens env2 cache2 query = searchTokens env cache0 query) := by
  have hmap : dasMap env.das ≠ [] := foldSet_ne_nil _ [] (Or.inr h2)
  have hsc : shortCircuit env query = true := by
    unfold shortCircuit
    rw [decide_eq_true h1]
    simp [hmap]
  have hrun : searchTokens env cache0 query =
      Except.ok (List.insertionSort (dasLe (normQuery query))
        (jsMapValues (dasMap env.das))) := by
    unfold searchTokens
    rw [hsc, if_pos rfl]
  refine ⟨_, hrun, ?_, ?_, ?_⟩
  · intro hnil
    have hperm := List.perm_insertionSort (dasLe (normQuery query))
      (jsMapValues (dasMap env.das))
    rw [hnil] at hperm
    have : jsMapValues (dasMap env.das) = [] := hperm.symm.eq_nil
    unfold jsMapValues at this
    exact hmap (List.map_eq_nil_iff.mp this)
  · intro r hr
    have hrv : r ∈ jsMapValues (dasMap env.das) :=
      (List.perm_insertionSort (dasLe (normQuery query)) _).mem_iff.mp hr
    have hmem : r ∈ searchTokensBySymbol env.das := by
      rcases mem_values_foldSet _ [] r hrv with h3 | h3
      · simp [jsMapValues] at h3
      · exact h3
    have hsrc : r.source = str "helius-das" := by
      unfold searchTokensBySymbol at hmem
      cases hdas : env.das with
      | error e => rw [hdas] at hmem; cases hmem
      | ok assets =>
        rw [hdas] at hmem
        obtain ⟨a, _, rfl⟩ := List.mem_map.mp hmem
        rfl
    exact ⟨hsrc, hmem, by rw [hsrc]; decide⟩
  · intro env2 cache2 hdas
    have hsc2 : shortCircuit env2 query = true := by
      unfold shortCircuit at hsc ⊢
      rw [hdas]
      exact hsc
    unfold searchTokens
    rw [hsc, hsc2, if_pos rfl, if_pos rfl, hdas]

/-- DAS asset for the C10 witness. -/
def dasAssetW10 : DasAsset :=
  { id := str "b1", metaName := some (str "Bonk"), metaSymbol := some (str "BONK"),
    supply := none, createdAtMs := none }

/-- Oracle environment for the C10 witness: the DAS lookup succeeds with
one asset while the ledger scan would fail — the short-circuit never
reaches it. -/
def searchEnvC10 : SearchEnv :=
  { das := Except.ok [dasAssetW10]
  , mintAccount := fun _ => none
  , metadataRaw := fun _ => none
  , nowMs := 0
  , programSigs := Except.error ()
  , parsedTx := fun _ => Except.ok none }

/-- Witness for C10 at the concrete environment. -/
theorem das_shortcircuit_spec_witness :
    ∃ l, searchTokens searchEnvC10 [] (str "bonk") = Except.ok l ∧ l ≠ [] ∧
      (∀ r, r ∈ l → r.source = str "helius-das" ∧
        r ∈ searchTokensBySymbol searchEnvC10.das ∧ r.source ≠ str "known") ∧
      (∀ env2 cache2, env2.das = searchEnvC10.das →
        searchTokens env2 cache2 (str "bonk") = searchTokens searchEnvC10 [] (str "bonk")) :=
  das_shortcircuit_spec searchEnvC10 [] (str "bonk") (by decide) (by decide)

/-- DAS asset for the C8 counterexample: created 50ms before the
reference time, well inside the 24h window. -/
def dasAssetC8 : DasAsset :=
  { id := str "c1", metaName := some (str "cc"), metaSymbol := some (str "cc"),
    supply := none, createdAtMs := some 50 }

/-- Oracle environment for the C8 counterexample. -/
def searchEnvC8 : SearchEnv :=
  { das := Except.ok [dasAssetC8]
  , mintAccount := fun _ => none
  , metadataRaw := fun _ => none
  , nowMs := 100
  , programSigs := Except.ok []
  , parsedTx := fun _ => Except.ok none }

/-- C8 counterexample: searchTokens returns a record whose mint date is
present and within the 24h freshness window at the reference time, yet
whose isNewToken is false — the DAS short-circuit path hardcodes
isNewToken to false (src/src/utils/helius.ts line 359) — so the claimed
equivalence does not hold for every returned record. -/
theorem isNewToken_das_cex :
    searchTokens searchEnvC8 [] (str "cc") = Except.ok [dasToken dasAssetC8] ∧
    (dasToken dasAssetC8).mintDate = some 50 ∧
    searchEnvC8.nowMs - 50 ≤ 86400000 ∧
    (dasToken dasAssetC8).isNewToken = false := by decide

theorem computeIsNewToken_iff (nowMs : Int) (mintDateMs : Option Int) (w : Int) :
    computeIsNewToken nowMs mintDateMs w = true ↔
      ∃ m, mintDateMs = some m ∧ nowMs - m ≤ w := by
  cases mintDateMs with
  | none => simp [computeIsNewToken]
  | some m => simp [computeIsNewToken]

/-- C8 amended: the isNewToken formula shared by the resolver
(src/src/utils/helius.ts line 189) and the part_008 recomputation (lines
856-861) is true exactly when a mint date is present and its age at the
reference time is within the freshness window, and enlarging the window
never turns a true into a false; every record the resolver produces (the
known-registry and ledger-scan paths) carries exactly this derived value
and so satisfies the equivalence — but the records of the DAS
short-circuit path carry isNewToken hardcoded to false regardless of
their mint date. -/
theorem isNewToken_spec (nowMs : Int) (mintDateMs : Option Int) (w w2 : Int) :
    (computeIsNewToken nowMs mintDateMs w = true ↔
      ∃ m, mintDateMs = some m ∧ nowMs - m ≤ w) ∧
    (w ≤ w2 → computeIsNewToken nowMs mintDateMs w = true →
      computeIsNewToken nowMs mintDateMs w2 = true) ∧
    (∀ env a bt r, getTokenInfoFromMint env a bt = some r →
      r.isNewToken = computeIsNewToken env.nowMs r.mintDate 86400000 ∧
      (r.isNewToken = true ↔ ∃ m, r.mintDate = some m ∧ env.nowMs - m ≤ 86400000)) ∧
    (∀ a, (dasToken a).isNewToken = false) := by
  refine ⟨computeIsNewToken_iff nowMs mintDateMs w, ?_, ?_, fun a => rfl⟩
  · intro hw h
    cases mintDateMs with
    | none => simp [computeIsNewToken] at h
    | some m =>
      simp only [computeIsNewToken, decide_eq_true_eq] at h ⊢
      omega
  · intro env a bt r h
    have heq : r.isNewToken = computeIsNewToken env.nowMs r.mintDate 86400000 := by
      unfold getTokenInfoFromMint at h
      cases hma : env.mintAccount a with
      | none => rw [hma] at h; cases h
      | some td =>
        rw [hma] at h
        dsimp only at h
        cases hc : (metaOrName (resolvedMeta env a) td == unknownStr
            || metaOrSymbol (resolvedMeta env a) td == unknownStr) with
        | true => rw [hc] at h; simp at h
        | false =>
          rw [hc] at h
          simp only [Bool.false_eq_true, if_false] at h
          injection h with h
          subst h
          rfl
    refine ⟨heq, ?_⟩
    rw [heq]
    exact computeIsNewToken_iff env.nowMs r.mintDate 86400000

/-- Witness for the amended C8: a record 50ms old is new for a 60ms
window, hence also for the enlarged 70ms window by the theorem. -/
theorem isNewToken_spec_witness : computeIsNewToken 100 (some 50) 70 = true :=
  (isNewToken_spec 100 (some 50) 60 70).2.1 (by decide) (by decide)


/-- A token entry of the Jupiter token list
(src/unnamed/part_007 lines 365-369). -/
structure JupToken where
  address : Str
  name : Str
  symbol : Str
deriving DecidableEq

/-- A transaction view for the part_007 variant: block time and the
post-token-balance mints. -/
structure TxView where
  blockTime : Option Int
  postMints : Option (List Str)
deriving DecidableEq

/-- Oracle environment for the part_007 variant of searchTokens
(src/unnamed/part_007 lines 352-609). -/
structure Env7 where
  jupiter : Except Unit (List JupToken)
  sigsFor : Str → Except Unit (List SigEntry)
  getTx : Str → Except Unit (Option TxView)
  programSigs : Except Unit (List SigEntry)
  mintAccount : Str → Except Unit (Option MintData)
  nowMs : Int

/-- The mint-date lookup of the part_007 getTokenDetails (lines 555-570):
the last entry of a limit-1 signature fetch; every failure inside the
inner try leaves the date absent. -/
def tokenDetails7MintDate (env : Env7) (address : Str) : Option Int :=
  match env.sigsFor address with
  | Except.error _ => none
  | Except.ok sigs =>
    if sigs.isEmpty then none
    else
      match sigs.getLast? with
      | none => none
      | some sl =>
        match env.getTx sl.signature with
        | Except.error _ => none
        | Except.ok none => none
        | Except.ok (some tx) => computeMintDate tx.blockTime

/-- getTokenDetails of the part_007 variant (src/unnamed/part_007 lines
548-609): the Jupiter list is consulted first and a failed fetch
propagates (the outer catch rethrows); otherwise fall back to on-chain
mint state; both success branches return a record at the queried
address. -/
def getTokenDetails7 (env : Env7) (address : Str) : Except Unit (Option TokenInfo) :=
  match env.jupiter with
  | Except.error e => Except.error e
  | Except.ok toks =>
    match toks.find? fun t => t.address == address with
    | some jt =>
      Except.ok (some
        { address := jt.address, name := jt.name, symbol := jt.symbol,
          source := str "jupiter",
          mintDate := tokenDetails7MintDate env address,
          isNewToken := false, supply := none, metadata := none })
    | none =>
      match env.mintAccount address with
      | Except.error _ => Except.ok none
      | Except.ok none => Except.ok none
      | Except.ok (some td) =>
        Except.ok (some
          { address := address,
            name := jsOrStr (td.name.getD []) unknownStr,
            symbol := jsOrStr (td.symbol.getD []) unknownStr,
            source := str "on-chain",
            mintDate := tokenDetails7MintDate env address,
            isNewToken := false, supply := none, metadata := none })

/-- The basic (unenriched) Jupiter record (src/unnamed/part_007 lines
447-453 and 457-463). -/
def jupBasic (t : JupToken) : TokenInfo :=
  { address := t.address, name := t.name, symbol := t.symbol,
    source := str "jupiter", mintDate := none, isNewToken := false,
    supply := none, metadata := none }

/-- One Jupiter candidate with its mint-date enrichment (src/unnamed/
part_007 lines 419-466): block time of the earliest signature; a
failure or empty response inside the inner try yields the basic record. -/
def jupRecord (env : Env7) (t : JupToken) : TokenInfo :=
  match env.sigsFor t.address with
  | Except.error _ => jupBasic t
  | Except.ok sigs =>
    if sigs.isEmpty then jupBasic t
    else
      match List.insertionSort sigTimeLe sigs with
      | [] => jupBasic t
      | s0 :: _ =>
        match env.getTx s0.signature with
        | Except.error _ => jupBasic t
        | Except.ok none => jupBasic t
        | Except.ok (some tx) =>
          { address := t.address, name := t.name, symbol := t.symbol,
            source := str "jupiter",
            mintDate := computeMintDate tx.blockTime,
            isNewToken := computeIsNewToken env.nowMs (computeMintDate tx.blockTime) 86400000,
            supply := none, metadata := none }

/-- One scanned transaction of the part_007 on-chain pass (lines
479-510): only the first post-balance mint is considered; note that a
transaction without a block time yields isNewToken true here (line
486). -/
def onChainCandidate (env : Env7) (sig : SigEntry) : Option TokenInfo :=
  match env.getTx sig.signature with
  | Except.error _ => none
  | Except.ok none => none
  | Except.ok (some tx) =>
    match tx.postMints with
    | none => none
    | some [] => none
    | some (m0 :: _) =>
      match env.mintAccount m0 with
      | Except.error _ => none
      | Except.ok none => none
      | Except.ok (some td) =>
        some
          { address := m0,
            name := jsOrStr (td.name.getD []) unknownStr,
            symbol := jsOrStr (td.symbol.getD []) unknownStr,
            source := str "on-chain",
            mintDate := computeMintDate tx.blockTime,
            isNewToken :=
              match computeMintDate tx.blockTime with
              | some m => decide (env.nowMs - m ≤ 86400000)
              | none => true,
            supply := none, metadata := none }

/-- The date-only sort comparator of the part_007 variant (lines
530-535). -/
def dateLe (a b : TokenInfo) : Prop := dateCmp a.mintDate b.mintDate ≤ 0

instance : DecidableRel dateLe := fun _ _ => Int.decLe _ _

/-- The address fast path of the part_007 searchTokens (lines 393-406):
for queries of plausible address length (at least 32), resolve the query
directly; a throw is caught and the search falls through. -/
def searchTokens7Fast (env : Env7) (query : Str) : Option TokenInfo :=
  if 32 ≤ (lowerStr query).length then
    match getTokenDetails7 env query with
    | Except.error _ => none
    | Except.ok o => o
  else none

/-- The Jupiter aggregation pass of the part_007 searchTokens (lines
408-469): substring filter on symbol, name and address, then enrichment
and unconditional merge writes; a failed list fetch contributes
nothing. -/
def jupResults (env : Env7) (searchQuery : Str) : List (Str × TokenInfo) :=
  match env.jupiter with
  | Except.error _ => []
  | Except.ok toks =>
    (toks.filter fun t =>
        strIncludes (lowerStr t.symbol) searchQuery ||
        strIncludes (lowerStr t.name) searchQuery ||
        strIncludes (lowerStr t.address) searchQuery).foldl
      (fun m t => jsMapSet m t.address (jupRecord env t)) []

/-- The on-chain pass of the part_007 searchTokens (lines 471-526):
candidates filtered by symbol/name substring, written with a guarded
merge; a failed signature fetch contributes nothing. -/
def withOnChain (env : Env7) (searchQuery : Str) (results1 : List (Str × TokenInfo)) :
    List (Str × TokenInfo) :=
  match env.programSigs with
  | Except.error _ => results1
  | Except.ok rsigs =>
    (((rsigs.map (onChainCandidate env)).filterMap id).filter fun mint =>
        strIncludes (lowerStr mint.symbol) searchQuery ||
        strIncludes (lowerStr mint.name) searchQuery).foldl
      (fun m t => if jsMapHas m t.address then m else jsMapSet m t.address t) results1

/-- The part_007 variant of searchTokens (src/unnamed/part_007 lines
386-546): address fast path, Jupiter pass, on-chain pass, date sort,
new-tokens-first partition, cap of 50. Every aggregation failure is
caught, so this variant never throws. -/
def searchTokens7 (env : Env7) (query : Str) : List TokenInfo :=
  match searchTokens7Fast env query with
  | some td => [td]
  | none =>
    let sorted := List.insertionSort dateLe
      (jsMapValues (withOnChain env (lowerStr query) (jupResults env (lowerStr query))))
    ((sorted.filter fun t => t.isNewToken) ++ (sorted.filter fun t => !t.isNewToken)).take 50

theorem getTokenDetails7_address (env : Env7) (a : Str) (td : TokenInfo)
    (h : getTokenDetails7 env a = Except.ok (some td)) : td.address = a := by
  unfold getTokenDetails7 at h
  cases hj : env.jupiter with
  | error e => rw [hj] at h; cases h
  | ok toks =>
    rw [hj] at h
    dsimp only at h
    cases hf : toks.find? (fun t => t.address == a) with
    | some jt =>
      rw [hf] at h
      injection h with h
      injection h with h
      subst h
      have hp : (jt.address == a) = true := by
        have hq := List.find?_some hf
        simpa using hq
      show jt.address = a
      exact eq_of_beq hp
    | none =>
      rw [hf] at h
      cases hma : env.mintAccount a with
      | error e =>
        rw [hma] at h
        injection h with h
        cases h
      | ok o =>
        cases o with
        | none =>
          rw [hma] at h
          injection h with h
          cases h
        | some td2 =>
          rw [hma] at h
          injection h with h
          injection h with h
          subst h
          rfl

/-- C9 amended: for an address-shaped query (plausible address length),
if the direct resolution of the query as a mint succeeds, searchTokens
returns exactly that one record and its address equals the query; if the
direct resolution fails or throws, the search falls through to the
aggregators, which may return several records none of which carries the
queried address. -/
theorem address_fastpath_spec (env : Env7) (q : Str) (td : TokenInfo)
    (h1 : 32 ≤ (lowerStr q).length)
    (h2 : getTokenDetails7 env q = Except.ok (some td)) :
    searchTokens7 env q = [td] ∧ td.address = q := by
  have hfast : searchTokens7Fast env q = some td := by
    unfold searchTokens7Fast
    rw [if_pos h1, h2]
  constructor
  · unfold searchTokens7
    rw [hfast]
  · exact getTokenDetails7_address env q td h2

/-- Jupiter entry whose address is the witness query. -/
def jupTokW : JupToken :=
  { address := str "abcdefghijklmnopqrstuvwxyzabcdef", name := str "Tok",
    symbol := str "TOK" }

/-- Oracle environment for the C9 witness. -/
def env7W : Env7 :=
  { jupiter := Except.ok [jupTokW]
  , sigsFor := fun _ => Except.ok []
  , getTx := fun _ => Except.ok none
  , programSigs := Except.ok []
  , mintAccount := fun _ => Except.ok none
  , nowMs := 0 }

/-- The record the fast path resolves in the C9 witness. -/
def td7W : TokenInfo :=
  { address := str "abcdefghijklmnopqrstuvwxyzabcdef", name := str "Tok",
    symbol := str "TOK", source := str "jupiter", mintDate := none,
    isNewToken := false, supply := none, metadata := none }

/-- Witness for the amended C9: a successful direct resolution of a
32-character query returns exactly that record. -/
theorem address_fastpath_spec_witness :
    searchTokens7 env7W (str "abcdefghijklmnopqrstuvwxyzabcdef") = [td7W] ∧
    td7W.address = str "abcdefghijklmnopqrstuvwxyzabcdef" :=
  address_fastpath_spec env7W (str "abcdefghijklmnopqrstuvwxyzabcdef") td7W
    (by decide) (by decide)

/-- The 32-character query of the C9 counterexample. -/
def qC9 : Str := str "abcdefghijklmnopqrstuvwxyzabcdef"

/-- First scanned mint address (44 characters, contains the query). -/
def a1C9 : Str := qC9 ++ str "111111111111"

/-- Second scanned mint address (44 characters, contains the query). -/
def a2C9 : Str := qC9 ++ str "222222222222"

/-- Mint state of the queried address in the C9 counterexample: the query
really is a resolvable mint. -/
def mdQC9 : MintData := { name := some (str "QQ"), symbol := some (str "QQ"), supply := none }

/-- Oracle environment of the C9 counterexample: the Jupiter fetch throws
(making the fast-path getTokenDetails throw, which searchTokens catches),
while the on-chain scan surfaces two other mints whose names contain the
query string. -/
def env7C9 : Env7 :=
  { jupiter := Except.error ()
  , sigsFor := fun _ => Except.ok []
  , getTx := fun s =>
      if s = str "s1" then Except.ok (some { blockTime := none, postMints := some [a1C9] })
      else if s = str "s2" then Except.ok (some { blockTime := none, postMints := some [a2C9] })
      else Except.ok none
  , programSigs := Except.ok
      [{ signature := str "s1", blockTime := none }, { signature := str "s2", blockTime := none }]
  , mintAccount := fun a =>
      if a = qC9 then Except.ok (some mdQC9)
      else if a = a1C9 then Except.ok (some { name := some qC9, symbol := some (str "T1"), supply := none })
      else if a = a2C9 then Except.ok (some { name := some qC9, symbol := some (str "T2"), supply := none })
      else Except.ok none
  , nowMs := 0 }

/-- First record the C9 counterexample search returns. -/
def rC9a : TokenInfo :=
  { address := a1C9, name := qC9, symbol := str "T1", source := str "on-chain",
    mintDate := none, isNewToken := true, supply := none, metadata := none }

/-- Second record the C9 counterexample search returns. -/
def rC9b : TokenInfo :=
  { address := a2C9, name := qC9, symbol := str "T2", source := str "on-chain",
    mintDate := none, isNewToken := true, supply := none, metadata := none }

/-- C9 counterexample: the query has plausible address length and is a
resolvable mint address in this environment, yet searchTokens returns two
records, neither of which has the queried address — the fast path threw
(Jupiter fetch failure), the search fell through to the aggregators, and
the claim that an address query yields at most one record with address
equal to the query is false. -/
theorem address_query_cex :
    32 ≤ (lowerStr qC9).length ∧
    env7C9.mintAccount qC9 = Except.ok (some mdQC9) ∧
    searchTokens7 env7C9 qC9 = [rC9a, rC9b] ∧
    rC9a.address ≠ qC9 ∧ rC9b.address ≠ qC9 := by decide


end SolTrack
